import Mathlib

/-!
Verification development for the notion-translator CLI (src/main.py).

The program manipulates JSON objects (Notion pages and blocks) in memory.
We embed JSON values as an inductive type whose objects are association
lists of string keys, mirroring Python dicts (unique keys, insertion
order preserved, lookups by key).  External services (the Notion API and
the DeepL translator) are opaque: we model them as parameters (the pages
returned by the paginated list endpoint; a translation function
`tr : text → from_lang → to_lang → result`).  Fallible Python code
(KeyError, TypeError, IndexError, invalid translator payloads) is
embedded with `Option`: `none` means the Python call raises.
-/

set_option autoImplicit false

namespace NotionTranslator

/-- A JSON value, as produced by `json.loads`: Python dicts become
association lists of string keys. -/
inductive Json where
  | null
  | bool (b : Bool)
  | num (n : Int)
  | str (s : String)
  | arr (elems : List Json)
  | obj (fields : List (String × Json))

/-- A Python dict with JSON values: an association list.  A dict produced
by `json.loads` has unique keys; on such lists the operations below agree
with Python's dict semantics. -/
abbrev Obj := List (String × Json)

/-- Python `d[k]` / `k in d`: the value at key `k`, if present
(first binding wins). -/
def dictGet? : Obj → String → Option Json
  | [], _ => none
  | p :: rest, k => if p.1 == k then some p.2 else dictGet? rest k

/-- Python `d[k] = v`: replace the binding of key `k` in place, or append
the binding at the end if the key is absent. -/
def dictSet : Obj → String → Json → Obj
  | [], k, v => [(k, v)]
  | p :: rest, k, v => if p.1 == k then (k, v) :: rest else p :: dictSet rest k v

/-- Python `d.pop(k, None)`: remove the binding of key `k`, if any. -/
def dictPop (o : Obj) (k : String) : Obj :=
  o.filter (fun p => p.1 != k)

/-- Coerce a JSON value to a dict, as Python operations that require a
dict would (otherwise they raise `TypeError`). -/
def asObj : Json → Option Obj
  | .obj o => some o
  | _ => none

/-- Coerce a JSON value to a list (`TypeError` otherwise). -/
def asArr : Json → Option (List Json)
  | .arr a => some a
  | _ => none

/-- Coerce a JSON value to a string (`TypeError` otherwise). -/
def asStr : Json → Option String
  | .str s => some s
  | _ => none

/-- Python `j == s` for a string literal `s`: true exactly when `j` is
that string (`==` between a string and a value of another type is
`False` in Python). -/
def Json.isStrEq (j : Json) (s : String) : Bool :=
  match j with
  | .str t => t == s
  | _ => false

/-!  DeepL translation of a rich-text array (src/main.py, `translate_text`).
The DeepL client is opaque: `tr text from_lang to_lang` is the translated
text the service returns.  Python mutates each run in place; we return the
updated array.  `none` models the call raising: the `deep_translator`
client rejects a non-string payload (NotValidPayload), and
`each["text"]["content"] = ...` raises `TypeError` when `each["text"]` is
not a dict. -/

/-- One iteration of the `for each in rich_text_array` loop of
`translate_text`: translate `each["plain_text"]` if present, store the
result back, and mirror it into `each["text"]["content"]` when a
`"text"` key exists. -/
def translate_run (tr : String → String → String → String)
    (from_lang to_lang : String) (each : Obj) : Option Obj :=
  match dictGet? each "plain_text" with
  | none => some each
  | some (.str s) =>
    let result := tr s from_lang to_lang
    let each1 := dictSet each "plain_text" (.str result)
    match dictGet? each1 "text" with
    | none => some each1
    | some (.obj t) =>
      -- each["text"]["content"] = each["plain_text"], which was just set to result
      some (dictSet each1 "text" (.obj (dictSet t "content" (.str result))))
    | some _ => none
  | some _ => none

/-- `translate_text(rich_text_array, from_lang, to_lang)`: run
`translate_run` over every element of the array. -/
def translate_text (tr : String → String → String → String)
    (from_lang to_lang : String) : List Obj → Option (List Obj)
  | [] => some []
  | each :: rest => do
    let e ← translate_run tr from_lang to_lang each
    let r ← translate_text tr from_lang to_lang rest
    pure (e :: r)

/-- Supported source languages (src/main.py, `supported_from_langs`). -/
def supported_from_langs : List String :=
  ["BG", "CS", "DA", "DE", "EL", "EN", "ES", "ET", "FI", "FR", "HU", "ID",
   "IT", "JA", "LT", "LV", "NL", "PL", "PT", "RO", "RU", "SK", "SL", "SV",
   "TR", "ZH"]

/-- Supported destination languages (src/main.py, `supported_to_langs`). -/
def supported_to_langs : List String :=
  ["BG", "CS", "DA", "DE", "EL", "EN-GB", "EN-US", "ES", "ET", "FI", "FR",
   "HU", "ID", "IT", "JA", "LT", "LV", "NL", "PL", "PT-PT", "PT-BR", "RO",
   "RU", "SK", "SL", "SV", "TR", "ZH"]

/-- The keys stripped by `remove_unnecessary_properties`
(src/main.py, `keys_to_remove`). -/
def keys_to_remove : List String :=
  ["id", "created_time", "last_edited_time", "created_by", "last_edited_by"]

/-- `remove_unnecessary_properties(obj)`: `obj.pop(key, None)` for each
key in `keys_to_remove`.  Python mutates `obj`; we return the stripped
dict. -/
def remove_unnecessary_properties (obj : Obj) : Obj :=
  keys_to_remove.foldl dictPop obj

/-!  Block fetch (src/main.py, `build_translated_blocks`).  The Notion
endpoint `notion.blocks.children.list` is opaque; its successive
`results` arrays (one per iteration of the `while has_more` loop, the
loop ending when the server reports `has_more == False`) are a parameter
`pages : List (List Obj)`.  Debug printing and the progress dot are pure
output and are omitted. -/

/-- The body of the `for result in blocks["results"]` loop, applied to
one fetched block: at depth ≥ 2 force `has_children` to false; at depth
1 a `column_list` block has its (local) children array cleared and is
then skipped (`continue`); an `unsupported` block is skipped; any other
block is sanitized and appended.  `some none` = block skipped,
`some (some b)` = block appended as `b`, `none` = the iteration raises
(`KeyError` on a missing `"type"` key, or `KeyError`/`TypeError` in
`b["column_list"]["children"] = []`). -/
def process_block (nested_depth : Nat) (result : Obj) : Option (Option Obj) :=
  let b := if 2 ≤ nested_depth then dictSet result "has_children" (.bool false) else result
  match dictGet? b "type" with
  | none => none
  | some ty =>
    if nested_depth = 1 ∧ ty.isStrEq "column_list" then
      -- b["column_list"]["children"] = [] mutates only the local fetched
      -- dict; the `continue` then drops the block from the output.
      match dictGet? b "column_list" with
      | some (.obj _) => some none
      | _ => none
    else if ty.isStrEq "unsupported" then
      some none
    else
      some (some (remove_unnecessary_properties b))

/-- One fetched page of results, processed in order: a raising iteration
aborts the run, a skipped block contributes nothing, an appended block
is prepended to the rest of the pass. -/
def process_results (nested_depth : Nat) : List Obj → Option (List Obj)
  | [] => some []
  | result :: rest =>
    match process_block nested_depth result with
    | none => none
    | some none => process_results nested_depth rest
    | some (some b) => (process_results nested_depth rest).map (b :: ·)

/-- `build_translated_blocks(block_id, nested_depth, debug)`: concatenate
the processed blocks of every fetched page, in fetch order. -/
def build_translated_blocks (nested_depth : Nat) (pages : List (List Obj)) :
    Option (List Obj) :=
  match pages with
  | [] => some []
  | results :: rest =>
    match process_results nested_depth results,
          build_translated_blocks nested_depth rest with
    | some ts, some more => some (ts ++ more)
    | _, _ => none

/-!  Page replication (src/main.py, `create_new_page_for_translation`).
The returned dict is the keyword-argument object handed to
`notion.pages.create(**new_page)`; `none` means the function raises
before reaching that call.  `json.loads(json.dumps(original_page))`
yields a fresh tree (no sharing), so the Python in-place mutations of
`new_title` — an alias into `new_page` — are embedded by writing the
updated run back along the access path
`new_page["properties"]["title"]["title"][0]`, and reads of
`original_title` go to the untouched original page. -/

/-- Lines 187-191: `original_title = original_page["properties"]["title"]
["title"][0] if "title" in original_page["properties"] else the
placeholder run`.  `tarr[0]?` is the `[0]` indexing (`IndexError` when
the title array is empty). -/
def original_title? (props : Obj) : Option Json :=
  match dictGet? props "title" with
  | some tprop =>
    (asObj tprop).bind fun tpObj =>
    ((dictGet? tpObj "title").bind asArr).bind fun tarr =>
    tarr[0]?
  | none => some (Json.obj [("plain_text", Json.str "Translated page")])

/-- Lines 194-195, the two in-place updates of the `new_title` run:
`new_title["text"]["content"] = original_title["text"]["content"] +
f" (to_lang)"` and `new_title["plain_text"] = original_title["plain_text"]
+ f" (to_lang)"`.  Returns the updated run dict. -/
def new_title_updated (original_title new_title : Json) (to_lang : String) :
    Option Obj :=
  (asObj original_title).bind fun otObj =>
  ((dictGet? otObj "text").bind asObj).bind fun otText =>
  ((dictGet? otText "content").bind asStr).bind fun otContent =>
  (asObj new_title).bind fun ntObj =>
  ((dictGet? ntObj "text").bind asObj).bind fun ntText =>
  ((dictGet? otObj "plain_text").bind asStr).bind fun otPlain =>
  some (dictSet
    (dictSet ntObj "text"
      (Json.obj (dictSet ntText "content"
        (Json.str (otContent ++ " (" ++ to_lang ++ ")")))))
    "plain_text" (Json.str (otPlain ++ " (" ++ to_lang ++ ")")))

/-- `create_new_page_for_translation(original_page, to_lang, debug)`:
line 183 deep copy (identity on pure values), line 185
`new_page["parent"] = a dict with page_id = original_page["id"]`,
lines 187-195 as above with `new_title =
new_page["properties"]["title"]["title"][0]`, the write-back of the
mutated run along its access path (the deep copy is a tree, so this is
exactly the aliasing effect), line 196 sanitizing, and the
`notion.pages.create(**new_page)` argument as the result. -/
def create_new_page_for_translation (original_page : Obj) (to_lang : String) :
    Option Obj :=
  (dictGet? original_page "id").bind fun idv =>
  ((dictGet? original_page "properties").bind asObj).bind fun props =>
  (original_title? props).bind fun original_title =>
  ((dictGet? (dictSet original_page "parent" (Json.obj [("page_id", idv)]))
      "properties").bind asObj).bind fun nprops =>
  ((dictGet? nprops "title").bind asObj).bind fun ntprop =>
  ((dictGet? ntprop "title").bind asArr).bind fun ntarr =>
  ntarr[0]?.bind fun new_title =>
  (new_title_updated original_title new_title to_lang).bind fun ntObj =>
  some (remove_unnecessary_properties
    (dictSet (dictSet original_page "parent" (Json.obj [("page_id", idv)]))
      "properties"
      (Json.obj (dictSet nprops "title"
        (Json.obj (dictSet ntprop "title"
          (Json.arr (ntarr.set 0 (Json.obj ntObj)))))))))

/-!  The orchestrator `main` (src/main.py).  We embed the part before the
first network call: language-code validation and content-id extraction. -/

/-- How a run of `main` leaves the pre-network phase: either
`sys.stderr.write(msg)` followed by `sys.exit(1)` with no network call
made, or it proceeds to the first network call
(`notion.pages.retrieve(page_id=content_id)`). -/
inductive CliOutcome where
  | exitError (msg : String)
  | network (content_id : String)

/-- Python `str.split(sep)` for a single-character separator, on the
character list of the string: splitting never yields an empty list, and
empty pieces between adjacent separators are kept, exactly as in
Python. -/
def splitOnChar (sep : Char) : List Char → List (List Char)
  | [] => [[]]
  | c :: rest =>
    match splitOnChar sep rest with
    | [] => [[]]
    | g :: gs => if c = sep then [] :: g :: gs else (c :: g) :: gs

/-- Python `s.split(sep)` for the one-character separators used by
`main` ("/" and "-"). -/
def pySplit (s : String) (sep : Char) : List String :=
  (splitOnChar sep s.data).map String.mk

/-- `content_id = url.split("/")[-1].split("-")[-1]` (src/main.py line
238).  Python `l[-1]` is the last element; both splits are on nonempty
separators, so the split lists are nonempty and the default of
`getLastD` is never used. -/
def extract_content_id (url : String) : String :=
  ((pySplit ((pySplit url '/').getLastD "") '-').getLastD "")

/-- Python `str.upper()`, which uppercases each character (the language
codes involved are ASCII, where `Char.toUpper` agrees with Python). -/
def pyUpper (s : String) : String :=
  String.mk (s.data.map Char.toUpper)

/-- The start of `main(from_lang, to_lang, url, debug)`: the two
allow-list checks, then the content-id extraction feeding the first
network call. -/
def main_language_check (from_lang to_lang url : String) : CliOutcome :=
  if pyUpper from_lang ∉ supported_from_langs then
    .exitError ("ERROR: " ++ pyUpper from_lang ++ " is not a supported language code...")
  else if pyUpper to_lang ∉ supported_to_langs then
    .exitError ("ERROR: " ++ pyUpper to_lang ++ " is not a supported language code...")
  else
    .network (extract_content_id url)

/-!  The block-upload loop of `main` (src/main.py lines 261-272).  Each
recursive step is one `notion.blocks.children.append` call; the returned
list collects, in order, the `children` argument of each call. -/

/-- The `while end_index < len(translated_blocks)` loop, starting from a
given `end_index` (initially 0), with `page_size = 10`:
`reduced_blocks = translated_blocks[begin_index:end_index]` is the batch
passed to one append call. -/
def upload_batches_from (translated_blocks : List Obj) (end_index : Nat) :
    List (List Obj) :=
  -- begin_index = end_index; end_index = min(begin_index + page_size, len(...))
  -- with page_size = 10; the batch is translated_blocks[begin_index:end_index]
  if h : end_index < translated_blocks.length then
    ((translated_blocks.drop end_index).take
        (min (end_index + 10) translated_blocks.length - end_index)) ::
      upload_batches_from translated_blocks (min (end_index + 10) translated_blocks.length)
  else
    []
termination_by translated_blocks.length - end_index
decreasing_by
  simp only [Nat.min_def]
  split <;> omega

/-- The batches passed to the successive append calls of `main`. -/
def upload_batches (translated_blocks : List Obj) : List (List Obj) :=
  upload_batches_from translated_blocks 0

/-!  Heap model for the frame property of
`create_new_page_for_translation`: Python objects form a graph of
mutable container cells (dicts and lists); immutable values (strings,
numbers, booleans, None) are inline.  The deep copy
`json.loads(json.dumps(original_page))` allocates fresh cells only, so
the in-place mutations of the function never touch a pre-existing cell;
this section makes that aliasing argument formal. -/

/-- A Python value in the object graph: immutable leaves inline, mutable
containers (dicts, lists) by reference into the store. -/
inductive HVal where
  | null
  | bool (b : Bool)
  | num (n : Int)
  | str (s : String)
  | ref (a : Nat)

/-- A mutable container cell: a Python list or dict. -/
inductive HCell where
  | arr (elems : List HVal)
  | obj (fields : List (String × HVal))

/-- The Python heap: the cell at address `a` is `σ[a]?`. -/
abbrev Store := List HCell

/-- Python `d[k]` on a dict cell's fields. -/
def hfGet? : List (String × HVal) → String → Option HVal
  | [], _ => none
  | p :: rest, k => if p.1 == k then some p.2 else hfGet? rest k

/-- Python `d[k] = v` on a dict cell's fields. -/
def hfSet : List (String × HVal) → String → HVal → List (String × HVal)
  | [], k, v => [(k, v)]
  | p :: rest, k, v => if p.1 == k then (k, v) :: rest else p :: hfSet rest k v

/-- Python `d.pop(k, None)` on a dict cell's fields. -/
def hfPop (fs : List (String × HVal)) (k : String) : List (String × HVal) :=
  fs.filter (fun p => p.1 != k)

mutual

/-- Line 183, `json.loads(json.dumps(x))` on one heap value: leaves are
copied inline, a reference is copied by recursively copying the cell's
contents and allocating a fresh cell at the end of the store.  The fuel
decreases on every recursive call; `json.dumps` raises on a cyclic
structure, which `none` covers (any fuel above the object's size
succeeds on the acyclic graphs `json.loads` produces). -/
def copyVal : Nat → Store → HVal → Option (Store × HVal)
  | 0, _, _ => none
  | fuel + 1, σ, .ref a =>
    σ[a]?.bind fun c =>
      match c with
      | .arr es =>
        (copyList fuel σ es).map fun p => (p.1 ++ [HCell.arr p.2], .ref p.1.length)
      | .obj fs =>
        (copyObj fuel σ fs).map fun p => (p.1 ++ [HCell.obj p.2], .ref p.1.length)
  | _ + 1, σ, w => some (σ, w)

/-- Copy of the element list of a list cell, left to right. -/
def copyList : Nat → Store → List HVal → Option (Store × List HVal)
  | 0, _, _ => none
  | _ + 1, σ, [] => some (σ, [])
  | fuel + 1, σ, v :: vs =>
    (copyVal fuel σ v).bind fun q =>
    (copyList fuel q.1 vs).map fun p => (p.1, q.2 :: p.2)

/-- Copy of the field list of a dict cell, left to right. -/
def copyObj : Nat → Store → List (String × HVal) →
    Option (Store × List (String × HVal))
  | 0, _, _ => none
  | _ + 1, σ, [] => some (σ, [])
  | fuel + 1, σ, (k, v) :: fs =>
    (copyVal fuel σ v).bind fun q =>
    (copyObj fuel q.1 fs).map fun p => (p.1, (k, q.2) :: p.2)

end

/-- Line 185, `new_page["parent"] = {"page_id": original_page["id"]}`:
read the id off the original page's dict cell, allocate the dict
literal, and store a reference to it in the copy's dict cell. -/
def heap_set_parent (σ : Store) (page np : Nat) : Option Store :=
  σ[page]?.bind fun pc =>
  match pc with
  | .obj pageFields =>
    (hfGet? pageFields "id").bind fun idv =>
    ((σ ++ [HCell.obj [("page_id", idv)]])[np]?).bind fun npc =>
    match npc with
    | .obj npFields =>
      some ((σ ++ [HCell.obj [("page_id", idv)]]).set np
        (.obj (hfSet npFields "parent" (.ref σ.length))))
    | _ => none
  | _ => none

/-- Lines 187-191, `original_title = original_page["properties"]["title"]
["title"][0] if "title" in original_page["properties"] else the
placeholder`: pure reads on the original page's graph, except that the
placeholder branch allocates the dict literal. -/
def heap_original_title (σ : Store) (page : Nat) : Option (Store × HVal) :=
  σ[page]?.bind fun pc =>
  match pc with
  | .obj pageFields =>
    (hfGet? pageFields "properties").bind fun pv =>
    match pv with
    | .ref pr =>
      σ[pr]?.bind fun prc =>
      match prc with
      | .obj propsFields =>
        match hfGet? propsFields "title" with
        | some tv =>
          match tv with
          | .ref tr =>
            σ[tr]?.bind fun trc =>
            match trc with
            | .obj trFields =>
              (hfGet? trFields "title").bind fun av =>
              match av with
              | .ref ar =>
                σ[ar]?.bind fun arc =>
                match arc with
                | .arr es => (es[0]?).map fun ot => (σ, ot)
                | _ => none
              | _ => none
            | _ => none
          | _ => none
        | none =>
          some (σ ++ [HCell.obj [("plain_text", .str "Translated page")]],
            .ref σ.length)
      | _ => none
    | _ => none
  | _ => none

/-- Line 193, `new_title = new_page["properties"]["title"]["title"][0]`:
pure reads on the copy's graph. -/
def heap_new_title (σ : Store) (np : Nat) : Option HVal :=
  σ[np]?.bind fun npc =>
  match npc with
  | .obj npFields =>
    (hfGet? npFields "properties").bind fun pv =>
    match pv with
    | .ref p1 =>
      σ[p1]?.bind fun c1 =>
      match c1 with
      | .obj f1 =>
        (hfGet? f1 "title").bind fun tv =>
        match tv with
        | .ref p2 =>
          σ[p2]?.bind fun c2 =>
          match c2 with
          | .obj f2 =>
            (hfGet? f2 "title").bind fun av =>
            match av with
            | .ref p3 =>
              σ[p3]?.bind fun c3 =>
              match c3 with
              | .arr es => es[0]?
              | _ => none
            | _ => none
          | _ => none
        | _ => none
      | _ => none
    | _ => none
  | _ => none

/-- Lines 194-195, the two in-place updates of the `new_title` run dict:
the content of its `"text"` cell and its own `"plain_text"` field are
overwritten with the suffixed strings read off `original_title`. -/
def heap_update_title (σ : Store) (ot nt : HVal) (to_lang : String) :
    Option Store :=
  match ot, nt with
  | .ref otr, .ref ntr =>
    σ[otr]?.bind fun oc =>
    match oc with
    | .obj otFields =>
      (hfGet? otFields "text").bind fun otv =>
      match otv with
      | .ref ottr =>
        σ[ottr]?.bind fun ottc =>
        match ottc with
        | .obj ottFields =>
          (hfGet? ottFields "content").bind fun cv =>
          match cv with
          | .str otContent =>
            σ[ntr]?.bind fun nc =>
            match nc with
            | .obj ntFields =>
              (hfGet? ntFields "text").bind fun ntv =>
              match ntv with
              | .ref nttr =>
                σ[nttr]?.bind fun nttc =>
                match nttc with
                | .obj nttFields =>
                  -- line 194 store into new_title["text"]["content"]
                  ((σ.set nttr (.obj (hfSet nttFields "content"
                      (.str (otContent ++ " (" ++ to_lang ++ ")")))))[otr]?).bind fun oc5 =>
                  match oc5 with
                  | .obj otFields5 =>
                    (hfGet? otFields5 "plain_text").bind fun pv =>
                    match pv with
                    | .str otPlain =>
                      ((σ.set nttr (.obj (hfSet nttFields "content"
                          (.str (otContent ++ " (" ++ to_lang ++ ")")))))[ntr]?).bind fun nc5 =>
                      match nc5 with
                      | .obj ntFields5 =>
                        -- line 195 store into new_title["plain_text"]
                        some ((σ.set nttr (.obj (hfSet nttFields "content"
                          (.str (otContent ++ " (" ++ to_lang ++ ")"))))).set ntr
                          (.obj (hfSet ntFields5 "plain_text"
                            (.str (otPlain ++ " (" ++ to_lang ++ ")")))))
                      | _ => none
                    | _ => none
                  | _ => none
                | _ => none
              | _ => none
            | _ => none
          | _ => none
        | _ => none
      | _ => none
    | _ => none
  | _, _ => none

/-- Line 196, `remove_unnecessary_properties(new_page)` on the heap:
pop the five server-managed keys off the copy's dict cell in place. -/
def heap_strip (σ : Store) (np : Nat) : Option Store :=
  σ[np]?.bind fun npc =>
  match npc with
  | .obj npFields => some (σ.set np (.obj (keys_to_remove.foldl hfPop npFields)))
  | _ => none

/-- `create_new_page_for_translation` on the heap: the deep copy of line
183, then the mutation and read steps of lines 185-196 in source order.
Returns the final store and the address of the `new_page` dict handed to
`notion.pages.create`; `none` means the call raises. -/
def create_new_page_heap (fuel : Nat) (σ0 : Store) (page : Nat)
    (to_lang : String) : Option (Store × Nat) :=
  match copyVal fuel σ0 (.ref page) with
  | some (σ1, .ref np) =>
    match heap_set_parent σ1 page np with
    | some σ3 =>
      match heap_original_title σ3 page with
      | some (σ4, ot) =>
        match heap_new_title σ4 np with
        | some nt =>
          match heap_update_title σ4 ot nt to_lang with
          | some σ6 =>
            match heap_strip σ6 np with
            | some σ7 => some (σ7, np)
            | none => none
          | none => none
        | none => none
      | none => none
    | none => none
  | _ => none

/-- A heap value's references all point at or above address `n`. -/
def HVal.refGE (n : Nat) (v : HVal) : Prop :=
  ∀ a, v = .ref a → n ≤ a

/-- All values of a field list point at or above `n`. -/
def FieldsGE (n : Nat) (fs : List (String × HVal)) : Prop :=
  ∀ kv, kv ∈ fs → HVal.refGE n kv.2

/-- All values of an element list point at or above `n`. -/
def ElemsGE (n : Nat) (es : List HVal) : Prop :=
  ∀ v, v ∈ es → HVal.refGE n v

/-- All references of a cell point at or above `n`. -/
def HCell.refsGE (n : Nat) : HCell → Prop
  | .arr es => ElemsGE n es
  | .obj fs => FieldsGE n fs

/-- Every cell at an address ≥ `n` holds only references ≥ `n`: the
fresh segment of the store is closed, never pointing back into the
pre-existing segment. -/
def InvSeg (n : Nat) (σ : Store) : Prop :=
  ∀ c cell, n ≤ c → σ[c]? = some cell → HCell.refsGE n cell

/-- `σ` evolved from `σ0` without touching it: the store only grew, the
old segment is intact, and the fresh segment is closed. -/
def Evolves (σ0 σ : Store) : Prop :=
  σ0.length ≤ σ.length ∧ (∀ b, b < σ0.length → σ[b]? = σ0[b]?) ∧
    InvSeg σ0.length σ

/-!  Helper lemmas about the dict primitives. -/

@[simp]
theorem dictGet?_dictSet_self (o : Obj) (k : String) (v : Json) :
    dictGet? (dictSet o k v) k = some v := by
  induction o with
  | nil => simp [dictGet?, dictSet]
  | cons p rest ih =>
    by_cases hp : p.1 = k
    · simp [dictGet?, dictSet, hp]
    · simp [dictGet?, dictSet, hp, ih]

theorem dictGet?_dictSet_ne (o : Obj) (k k' : String) (v : Json) (h : k' ≠ k) :
    dictGet? (dictSet o k v) k' = dictGet? o k' := by
  induction o with
  | nil => simp [dictGet?, dictSet, Ne.symm h]
  | cons p rest ih =>
    by_cases hp : p.1 = k
    · simp [dictGet?, dictSet, hp, Ne.symm h]
    · by_cases hq : p.1 = k'
      · simp [dictGet?, dictSet, hp, hq, h]
      · simp [dictGet?, dictSet, hp, hq, ih]

@[simp]
theorem dictGet?_dictPop_self (o : Obj) (k : String) :
    dictGet? (dictPop o k) k = none := by
  induction o with
  | nil => simp [dictGet?, dictPop]
  | cons p rest ih =>
    by_cases hp : p.1 = k
    · simpa [dictPop, List.filter_cons, hp] using ih
    · simpa [dictGet?, dictPop, List.filter_cons, hp] using ih

theorem dictGet?_dictPop_ne (o : Obj) (k k' : String) (h : k' ≠ k) :
    dictGet? (dictPop o k) k' = dictGet? o k' := by
  induction o with
  | nil => simp [dictPop]
  | cons p rest ih =>
    by_cases hp : p.1 = k
    · have hp' : p.1 ≠ k' := by
        rw [hp]; exact Ne.symm h
      simpa [dictGet?, dictPop, List.filter_cons, hp, hp', Ne.symm h] using ih
    · by_cases hq : p.1 = k'
      · simp [dictGet?, dictPop, List.filter_cons, hp, hq, h]
      · simpa [dictGet?, dictPop, List.filter_cons, hp, hq] using ih

theorem dictGet?_foldl_dictPop_none (ks : List String) (o : Obj) (k : String)
    (h : dictGet? o k = none) : dictGet? (ks.foldl dictPop o) k = none := by
  induction ks generalizing o with
  | nil => simpa using h
  | cons r rs ih =>
    simp only [List.foldl_cons]
    apply ih
    by_cases hrk : k = r
    · subst hrk; simp
    · rw [dictGet?_dictPop_ne _ _ _ hrk]; exact h

theorem dictGet?_foldl_dictPop_of_mem (ks : List String) (obj : Obj) (k : String)
    (hk : k ∈ ks) : dictGet? (ks.foldl dictPop obj) k = none := by
  induction ks generalizing obj with
  | nil => cases hk
  | cons k0 rest ih =>
    rcases List.mem_cons.mp hk with h0 | hrest
    · subst h0
      simp only [List.foldl_cons]
      exact dictGet?_foldl_dictPop_none _ _ _ (dictGet?_dictPop_self obj k)
    · simp only [List.foldl_cons]
      exact ih (dictPop obj k0) hrest

theorem dictGet?_foldl_dictPop_of_not_mem (ks : List String) (obj : Obj) (k : String)
    (hk : k ∉ ks) : dictGet? (ks.foldl dictPop obj) k = dictGet? obj k := by
  induction ks generalizing obj with
  | nil => rfl
  | cons k0 rest ih =>
    have hk0 : k ≠ k0 := fun e => hk (by simp [e])
    have hkr : k ∉ rest := fun m => hk (List.mem_cons_of_mem _ m)
    simp only [List.foldl_cons]
    rw [ih (dictPop obj k0) hkr, dictGet?_dictPop_ne _ _ _ hk0]

/-- Keys outside `keys_to_remove` are untouched by the sanitizer. -/
theorem dictGet?_remove_unnecessary_properties (obj : Obj) (k : String)
    (hk : k ∉ keys_to_remove) :
    dictGet? (remove_unnecessary_properties obj) k = dictGet? obj k :=
  dictGet?_foldl_dictPop_of_not_mem _ _ _ hk

/-- The upload loop starting at `end_index`: the batches cover exactly
the blocks from `end_index` on, and their number is the number of
size-10 chunks needed for the remaining blocks. -/
theorem upload_batches_from_spec (blocks : List Obj) :
    ∀ (n e : Nat), blocks.length - e ≤ n →
      (upload_batches_from blocks e).flatten = blocks.drop e ∧
      (upload_batches_from blocks e).length = (blocks.length - e + 9) / 10 := by
  intro n
  induction n with
  | zero =>
    intro e he
    have hle : blocks.length ≤ e := by omega
    rw [upload_batches_from, dif_neg (by omega)]
    refine ⟨by simp [List.drop_eq_nil_of_le hle], ?_⟩
    simp only [List.length_nil]
    omega
  | succ n ih =>
    intro e he
    rw [upload_batches_from]
    by_cases h : e < blocks.length
    · rw [dif_pos h]
      have hih := ih (min (e + 10) blocks.length) (by omega)
      constructor
      · rw [List.flatten_cons, hih.1]
        have hdd : blocks.drop (min (e + 10) blocks.length) =
            (blocks.drop e).drop (min (e + 10) blocks.length - e) := by
          rw [List.drop_drop]
          congr 1
          omega
        rw [hdd, List.take_append_drop]
      · rw [List.length_cons, hih.2]
        simp only [Nat.min_def]
        split <;> omega
    · rw [dif_neg h]
      have hle : blocks.length ≤ e := by omega
      refine ⟨by simp [List.drop_eq_nil_of_le hle], ?_⟩
      simp only [List.length_nil]
      omega

/-- C6: for a translated-block list of length N with upload batch size
10, the upload loop of `main` issues exactly ceil(N/10) append calls
(`(N + 9) / 10` in natural-number arithmetic), and concatenating the
batches passed to those calls in order reproduces the original list. -/
theorem upload_batches_ceil_and_concat (translated_blocks : List Obj) :
    (upload_batches translated_blocks).length = (translated_blocks.length + 9) / 10 ∧
    (upload_batches translated_blocks).flatten = translated_blocks := by
  have h := upload_batches_from_spec translated_blocks translated_blocks.length 0
    (by omega)
  refine ⟨?_, ?_⟩
  · rw [upload_batches, h.2, Nat.sub_zero]
  · rw [upload_batches, h.1, List.drop_zero]

/-- Counterexample for C2: the destination allow-list of the source
code has 28 language codes, not 26 as claimed (the spec's count of 26
misses that the destination list replaces EN and PT by two regional
variants each, 26 - 2 + 4 = 28). -/
theorem supported_to_langs_count_counterexample :
    supported_to_langs.length = 28 ∧ supported_to_langs.length ≠ 26 := by
  decide

/-- C2 (amended): the source allow-list has exactly 26 language codes,
the destination allow-list has exactly 28 language codes, and the
destination list contains the regional variants EN-GB, EN-US, PT-PT,
PT-BR for English and Portuguese, none of which occur in the source
list. -/
theorem supported_langs_allow_lists :
    supported_from_langs.length = 26 ∧ supported_to_langs.length = 28 ∧
    ("EN-GB" ∈ supported_to_langs ∧ "EN-GB" ∉ supported_from_langs) ∧
    ("EN-US" ∈ supported_to_langs ∧ "EN-US" ∉ supported_from_langs) ∧
    ("PT-PT" ∈ supported_to_langs ∧ "PT-PT" ∉ supported_from_langs) ∧
    ("PT-BR" ∈ supported_to_langs ∧ "PT-BR" ∉ supported_from_langs) := by
  decide

/-- C5: after `remove_unnecessary_properties`, none of the five
server-managed keys id, created_time, last_edited_time, created_by,
last_edited_by remain in the object. -/
theorem remove_unnecessary_properties_removes (obj : Obj) (k : String)
    (hk : k ∈ keys_to_remove) :
    dictGet? (remove_unnecessary_properties obj) k = none :=
  dictGet?_foldl_dictPop_of_mem _ _ _ hk

/-- Witness for C5: the sanitizer applied to a concrete block drops the
concrete key "id". -/
theorem remove_unnecessary_properties_removes_witness :
    "id" ∈ keys_to_remove ∧
    dictGet? (remove_unnecessary_properties
      [("id", .str "b1"), ("type", .str "paragraph"), ("created_by", .null)]) "id"
      = none :=
  ⟨by decide, remove_unnecessary_properties_removes _ "id" (by decide)⟩

/-- C9: the content id extracted by `main` from a URL whose final path
segment is "My-Page-abc123" is "abc123". -/
theorem extract_content_id_of_last_segment (url : String)
    (h : (pySplit url '/').getLastD "" = "My-Page-abc123") :
    extract_content_id url = "abc123" := by
  unfold extract_content_id
  rw [h]
  decide

/-- Witness for C9: a concrete Notion URL ending in "My-Page-abc123". -/
theorem extract_content_id_of_last_segment_witness :
    (pySplit "https://www.notion.so/My-Page-abc123" '/').getLastD ""
      = "My-Page-abc123" ∧
    extract_content_id "https://www.notion.so/My-Page-abc123" = "abc123" :=
  ⟨by decide, extract_content_id_of_last_segment _ (by decide)⟩

/-- C8: if the uppercased source code is outside the source allow-list
or the uppercased destination code is outside the destination
allow-list, `main` writes an error to stderr and exits with status 1
(the `CliOutcome.exitError` outcome) before making any network call
(network calls happen only past the `CliOutcome.network` outcome). -/
theorem main_language_check_rejects (from_lang to_lang url : String)
    (h : pyUpper from_lang ∉ supported_from_langs ∨
         pyUpper to_lang ∉ supported_to_langs) :
    ∃ msg, main_language_check from_lang to_lang url = .exitError msg := by
  unfold main_language_check
  by_cases hf : pyUpper from_lang ∉ supported_from_langs
  · exact ⟨_, by rw [if_pos hf]⟩
  · have ht : pyUpper to_lang ∉ supported_to_langs := h.resolve_left hf
    exact ⟨_, by rw [if_neg hf, if_pos ht]⟩

/-- Witness for C8: the concrete invocation `-f xx -t FR` is rejected. -/
theorem main_language_check_rejects_witness :
    (pyUpper "xx" ∉ supported_from_langs ∨ pyUpper "FR" ∉ supported_to_langs) ∧
    ∃ msg, main_language_check "xx" "FR" "https://www.notion.so/p" = .exitError msg :=
  ⟨Or.inl (by decide),
   main_language_check_rejects "xx" "FR" "https://www.notion.so/p" (Or.inl (by decide))⟩

/-- After one loop iteration of `translate_text` on a run carrying a
`plain_text` string, the stored `plain_text` is the translator's return
value, and an existing `text` dict has its `content` set to the same
value. -/
theorem translate_run_spec (tr : String → String → String → String)
    (fl tl : String) (e e' : Obj)
    (h : translate_run tr fl tl e = some e')
    (s : String) (hs : dictGet? e "plain_text" = some (.str s)) :
    dictGet? e' "plain_text" = some (.str (tr s fl tl)) ∧
    ∀ t, dictGet? e "text" = some (.obj t) →
      ∃ t', dictGet? e' "text" = some (.obj t') ∧
        dictGet? t' "content" = some (.str (tr s fl tl)) := by
  have htext : dictGet? (dictSet e "plain_text" (Json.str (tr s fl tl))) "text"
      = dictGet? e "text" := dictGet?_dictSet_ne _ _ _ _ (by decide)
  unfold translate_run at h
  simp only [hs] at h
  split at h
  · rename_i heq
    rw [htext] at heq
    cases h
    refine ⟨dictGet?_dictSet_self _ _ _, ?_⟩
    intro t ht
    rw [ht] at heq
    cases heq
  · rename_i t heq
    rw [htext] at heq
    cases h
    refine ⟨?_, ?_⟩
    · rw [dictGet?_dictSet_ne _ _ _ _ (by decide)]
      exact dictGet?_dictSet_self _ _ _
    · intro t0 ht0
      rw [ht0] at heq
      cases heq
      exact ⟨_, dictGet?_dictSet_self _ _ _, dictGet?_dictSet_self _ _ _⟩
  · cases h

/-- C4: for every rich-text run in the array passed to `translate_text`,
the post-call `plain_text` equals the translation service's return value
for the pre-call `plain_text`, and an existing nested `text.content`
field is updated to that same translated value. -/
theorem translate_text_updates_runs (tr : String → String → String → String)
    (fl tl : String) (arr arr' : List Obj)
    (h : translate_text tr fl tl arr = some arr')
    (i : Nat) (e : Obj) (he : arr[i]? = some e)
    (s : String) (hs : dictGet? e "plain_text" = some (.str s)) :
    ∃ e', arr'[i]? = some e' ∧
      dictGet? e' "plain_text" = some (.str (tr s fl tl)) ∧
      ∀ t, dictGet? e "text" = some (.obj t) →
        ∃ t', dictGet? e' "text" = some (.obj t') ∧
          dictGet? t' "content" = some (.str (tr s fl tl)) := by
  induction arr generalizing arr' i with
  | nil => simp at he
  | cons a rest ih =>
    cases hb : translate_run tr fl tl a with
    | none =>
      rw [translate_text, hb] at h
      cases h
    | some a1 =>
      cases hrest : translate_text tr fl tl rest with
      | none =>
        rw [translate_text, hb, hrest] at h
        cases h
      | some rest1 =>
        have harr : arr' = a1 :: rest1 := by
          rw [translate_text, hb, hrest] at h
          cases h
          rfl
        subst harr
        cases i with
        | zero =>
          rw [List.getElem?_cons_zero] at he
          cases he
          exact ⟨a1, by simp, translate_run_spec tr fl tl _ _ hb s hs⟩
        | succ n =>
          rw [List.getElem?_cons_succ] at he
          simpa using ih rest1 hrest n he

/-- Witness for C4: one concrete run translated by a concrete service. -/
theorem translate_text_updates_runs_witness :
    ∃ e', ([[("plain_text", Json.str "hi!"),
             ("text", Json.obj [("content", Json.str "hi!")])]] : List Obj)[0]?
        = some e' ∧
      dictGet? e' "plain_text" = some (.str ((fun s _ _ => s ++ "!") "hi" "EN" "FR")) ∧
      ∀ t, dictGet? [("plain_text", Json.str "hi"),
                     ("text", Json.obj [("content", Json.str "hi")])] "text"
          = some (.obj t) →
        ∃ t', dictGet? e' "text" = some (.obj t') ∧
          dictGet? t' "content" = some (.str ((fun s _ _ => s ++ "!") "hi" "EN" "FR")) :=
  translate_text_updates_runs (fun s _ _ => s ++ "!") "EN" "FR"
    [[("plain_text", Json.str "hi"), ("text", Json.obj [("content", Json.str "hi")])]]
    [[("plain_text", Json.str "hi!"), ("text", Json.obj [("content", Json.str "hi!")])]]
    (by rfl) 0 _ (by rfl) "hi" (by rfl)

/-- A block appended by the depth-1 loop body is never a `column_list`
block (those are skipped by the `continue`). -/
theorem process_block_depth1_no_column_list (r b : Obj)
    (h : process_block 1 r = some (some b)) :
    dictGet? b "type" ≠ some (.str "column_list") := by
  unfold process_block at h
  simp only [show ¬ (2 ≤ 1) by omega, if_false] at h
  split at h
  · cases h
  · rename_i ty hty
    split at h
    · rename_i hcond
      split at h <;> cases h
    · rename_i hcond
      split at h
      · cases h
      · rename_i hun
        cases h
        rw [dictGet?_remove_unnecessary_properties _ _ (by decide), hty]
        intro he
        cases he
        exact hcond ⟨by trivial, by simp [Json.isStrEq]⟩

/-- No block in the output of a depth-1 `process_results` pass has type
`column_list`. -/
theorem process_results_depth1_no_column_list (results out : List Obj)
    (h : process_results 1 results = some out) :
    ∀ b ∈ out, dictGet? b "type" ≠ some (.str "column_list") := by
  induction results generalizing out with
  | nil =>
    cases h
    intro b hb
    cases hb
  | cons r rest ih =>
    unfold process_results at h
    split at h
    · cases h
    · exact ih out h
    · rename_i b0 hpb
      cases htl : process_results 1 rest with
      | none => rw [htl] at h; cases h
      | some tail =>
        rw [htl] at h
        cases h
        intro b hb
        rcases List.mem_cons.mp hb with hb0 | hbt
        · subst hb0
          exact process_block_depth1_no_column_list r b hpb
        · exact ih tail htl b hbt

/-- Counterexample for C1: a `column_list` block fetched at nesting
depth 1 does NOT appear in the returned translated-block list — the
`continue` after clearing the children skips the append, so the result
for a single-page fetch containing only that block is the empty list. -/
theorem build_translated_blocks_column_list_counterexample :
    build_translated_blocks 1
      [[[("type", Json.str "column_list"),
         ("column_list", Json.obj [("children", Json.arr [Json.obj [("type", Json.str "column")]])]),
         ("has_children", Json.bool true)]]]
      = some [] := by
  rfl

/-- C1 (amended): a `column_list` block encountered at nesting depth 1
has its children array cleared on the local fetched object and is then
skipped by the `continue`: it is omitted from the returned
translated-block list, so no block of type `column_list` appears there. -/
theorem build_translated_blocks_depth1_drops_column_list
    (pages : List (List Obj)) (out : List Obj)
    (h : build_translated_blocks 1 pages = some out) :
    ∀ b ∈ out, dictGet? b "type" ≠ some (.str "column_list") := by
  induction pages generalizing out with
  | nil =>
    cases h
    intro b hb
    cases hb
  | cons results rest ih =>
    unfold build_translated_blocks at h
    split at h
    · rename_i ts more hpr hrest
      cases h
      intro b hb
      rcases List.mem_append.mp hb with hts | hmore
      · exact process_results_depth1_no_column_list results ts hpr b hts
      · exact ih more hrest b hmore
    · cases h

/-- Witness for C1 (amended): a depth-1 fetch of one ordinary paragraph
block, which does appear in the output and is not a column_list. -/
theorem build_translated_blocks_depth1_drops_column_list_witness :
    dictGet? [("type", Json.str "paragraph")] "type"
      ≠ some (.str "column_list") :=
  build_translated_blocks_depth1_drops_column_list
    [[[("type", Json.str "paragraph")]]] [[("type", Json.str "paragraph")]] (by rfl)
    [("type", Json.str "paragraph")] (List.mem_singleton.mpr rfl)

/-- C3: when the source page's properties dict has no "title" key, the
placeholder run bound by `create_new_page_for_translation` is never
applied to the title of a submitted page: the function raises before
reaching the creation call (`new_page["properties"]["title"]` is a
`KeyError`, since the deep copy lacks the key too), so no page object is
submitted at all. -/
theorem create_new_page_no_title_never_submitted (original_page : Obj)
    (to_lang : String) (props : Obj)
    (hprops : dictGet? original_page "properties" = some (.obj props))
    (htitle : dictGet? props "title" = none) :
    create_new_page_for_translation original_page to_lang = none := by
  unfold create_new_page_for_translation
  cases hid : dictGet? original_page "id" with
  | none => rfl
  | some idv =>
    have h2 : dictGet? (dictSet original_page "parent" (Json.obj [("page_id", idv)]))
        "properties" = some (.obj props) := by
      rw [dictGet?_dictSet_ne _ _ _ _ (by decide), hprops]
    have hot : original_title? props
        = some (Json.obj [("plain_text", Json.str "Translated page")]) := by
      unfold original_title?
      rw [htitle]
    rw [hprops]
    show Option.bind (original_title? props) _ = none
    rw [hot]
    show Option.bind ((dictGet? (dictSet original_page "parent"
      (Json.obj [("page_id", idv)])) "properties").bind asObj) _ = none
    rw [h2]
    show Option.bind ((dictGet? props "title").bind asObj) _ = none
    rw [htitle]
    rfl

/-- Witness for C3: a concrete page whose properties carry no title. -/
theorem create_new_page_no_title_never_submitted_witness :
    dictGet? [("id", Json.str "p1"), ("properties", Json.obj [("Status", Json.null)])]
      "properties" = some (Json.obj [("Status", Json.null)]) ∧
    dictGet? [("Status", Json.null)] "title" = none ∧
    create_new_page_for_translation
      [("id", Json.str "p1"), ("properties", Json.obj [("Status", Json.null)])] "FR"
      = none :=
  ⟨by rfl, by rfl,
   create_new_page_no_title_never_submitted _ "FR" _ (by rfl) (by rfl)⟩

/-- C7: for a source page whose first title rich-text run is the run
with `text.content = "Hello"` and `plain_text = "Hello"`, and
destination language "FR", the page object submitted for creation has a
first title run with `text.content = "Hello (FR)"` and
`plain_text = "Hello (FR)"` (the remaining title runs are untouched). -/
theorem create_new_page_title_suffix (page : Obj) (idv : Json)
    (props tp : Obj) (rest : List Json)
    (hid : dictGet? page "id" = some idv)
    (hprops : dictGet? page "properties" = some (.obj props))
    (htp : dictGet? props "title" = some (.obj tp))
    (harr : dictGet? tp "title" = some (.arr
      (Json.obj [("text", Json.obj [("content", Json.str "Hello")]),
                 ("plain_text", Json.str "Hello")] :: rest))) :
    ∃ newp nprops2 ntp2 trun tc,
      create_new_page_for_translation page "FR" = some newp ∧
      dictGet? newp "properties" = some (.obj nprops2) ∧
      dictGet? nprops2 "title" = some (.obj ntp2) ∧
      dictGet? ntp2 "title" = some (.arr (Json.obj trun :: rest)) ∧
      dictGet? trun "plain_text" = some (.str "Hello (FR)") ∧
      dictGet? trun "text" = some (.obj tc) ∧
      dictGet? tc "content" = some (.str "Hello (FR)") := by
  have h2 : dictGet? (dictSet page "parent" (Json.obj [("page_id", idv)]))
      "properties" = some (.obj props) := by
    rw [dictGet?_dictSet_ne _ _ _ _ (by decide), hprops]
  have hot : original_title? props
      = some (Json.obj [("text", Json.obj [("content", Json.str "Hello")]),
                        ("plain_text", Json.str "Hello")]) := by
    unfold original_title?
    rw [htp]
    show Option.bind ((dictGet? tp "title").bind asArr) _ = _
    rw [harr]
    show (Json.obj [("text", Json.obj [("content", Json.str "Hello")]),
                    ("plain_text", Json.str "Hello")] :: rest)[0]? = _
    rw [List.getElem?_cons_zero]
  have hnt : new_title_updated
      (Json.obj [("text", Json.obj [("content", Json.str "Hello")]),
                 ("plain_text", Json.str "Hello")])
      (Json.obj [("text", Json.obj [("content", Json.str "Hello")]),
                 ("plain_text", Json.str "Hello")]) "FR"
      = some [("text", Json.obj [("content", Json.str "Hello (FR)")]),
              ("plain_text", Json.str "Hello (FR)")] := by
    rfl
  have hcreate : create_new_page_for_translation page "FR"
      = some (remove_unnecessary_properties
          (dictSet (dictSet page "parent" (Json.obj [("page_id", idv)]))
            "properties"
            (Json.obj (dictSet props "title"
              (Json.obj (dictSet tp "title"
                (Json.arr (Json.obj
                  [("text", Json.obj [("content", Json.str "Hello (FR)")]),
                   ("plain_text", Json.str "Hello (FR)")] :: rest)))))))) := by
    unfold create_new_page_for_translation
    rw [hid]
    show Option.bind ((dictGet? page "properties").bind asObj) _ = _
    rw [hprops]
    show Option.bind (original_title? props) _ = _
    rw [hot]
    show Option.bind ((dictGet? (dictSet page "parent"
      (Json.obj [("page_id", idv)])) "properties").bind asObj) _ = _
    rw [h2]
    show Option.bind ((dictGet? props "title").bind asObj) _ = _
    rw [htp]
    show Option.bind ((dictGet? tp "title").bind asArr) _ = _
    rw [harr]
    show Option.bind ((Json.obj [("text", Json.obj [("content", Json.str "Hello")]),
                                 ("plain_text", Json.str "Hello")] :: rest)[0]?) _ = _
    rw [List.getElem?_cons_zero]
    simp only [Option.some_bind']
    rw [hnt]
    simp only [Option.some_bind', List.set_cons_zero]
  refine ⟨_,
    dictSet props "title" (Json.obj (dictSet tp "title" (Json.arr (Json.obj
      [("text", Json.obj [("content", Json.str "Hello (FR)")]),
       ("plain_text", Json.str "Hello (FR)")] :: rest)))),
    dictSet tp "title" (Json.arr (Json.obj
      [("text", Json.obj [("content", Json.str "Hello (FR)")]),
       ("plain_text", Json.str "Hello (FR)")] :: rest)),
    [("text", Json.obj [("content", Json.str "Hello (FR)")]),
     ("plain_text", Json.str "Hello (FR)")],
    [("content", Json.str "Hello (FR)")],
    hcreate, ?_, ?_, ?_, ?_, ?_, ?_⟩
  · rw [dictGet?_remove_unnecessary_properties _ _ (by decide)]
    exact dictGet?_dictSet_self _ _ _
  · exact dictGet?_dictSet_self _ _ _
  · exact dictGet?_dictSet_self _ _ _
  · rfl
  · rfl
  · rfl

/-- Witness for C7: a concrete page with the "Hello" title run. -/
theorem create_new_page_title_suffix_witness :
    ∃ newp nprops2 ntp2 trun tc,
      create_new_page_for_translation
        [("id", Json.str "p1"),
         ("properties", Json.obj [("title", Json.obj [("title", Json.arr
           [Json.obj [("text", Json.obj [("content", Json.str "Hello")]),
                      ("plain_text", Json.str "Hello")]])])]),
         ("created_time", Json.str "2023-01-01")] "FR"
        = some newp ∧
      dictGet? newp "properties" = some (.obj nprops2) ∧
      dictGet? nprops2 "title" = some (.obj ntp2) ∧
      dictGet? ntp2 "title" = some (.arr (Json.obj trun :: [])) ∧
      dictGet? trun "plain_text" = some (.str "Hello (FR)") ∧
      dictGet? trun "text" = some (.obj tc) ∧
      dictGet? tc "content" = some (.str "Hello (FR)") :=
  create_new_page_title_suffix
    [("id", Json.str "p1"),
     ("properties", Json.obj [("title", Json.obj [("title", Json.arr
       [Json.obj [("text", Json.obj [("content", Json.str "Hello")]),
                  ("plain_text", Json.str "Hello")]])])]),
     ("created_time", Json.str "2023-01-01")]
    (Json.str "p1")
    [("title", Json.obj [("title", Json.arr
      [Json.obj [("text", Json.obj [("content", Json.str "Hello")]),
                 ("plain_text", Json.str "Hello")]])])]
    [("title", Json.arr
      [Json.obj [("text", Json.obj [("content", Json.str "Hello")]),
                 ("plain_text", Json.str "Hello")]])]
    [] (by rfl) (by rfl) (by rfl) (by rfl)

/-!  Frame lemmas for the heap model: the fresh segment of the store
(addresses at or above the pre-call length) stays closed under the
allocations and mutations of `create_new_page_for_translation`, so the
pre-call segment — in particular the whole original page graph — is
untouched. -/

theorem lt_length_of_getElem?_some {α : Type} (l : List α) (b : Nat) (x : α)
    (h : l[b]? = some x) : b < l.length := by
  by_contra hc
  rw [List.getElem?_eq_none (by omega)] at h
  cases h

theorem getElem?_append_lt {α : Type} (l : List α) (c : α) (b : Nat)
    (h : b < l.length) : (l ++ [c])[b]? = l[b]? := by
  rw [List.getElem?_append]
  simp [h]

theorem refGE_of_not_ref (n : Nat) (v : HVal) (h : ∀ a, v ≠ .ref a) :
    v.refGE n := fun a ha => absurd ha (h a)

theorem InvSeg_init (σ0 : Store) : InvSeg σ0.length σ0 := by
  intro c cell hc hcell
  exact absurd (lt_length_of_getElem?_some _ _ _ hcell) (by omega)

theorem InvSeg_append (n : Nat) (σ : Store) (c : HCell) (h : InvSeg n σ)
    (hc : HCell.refsGE n c) : InvSeg n (σ ++ [c]) := by
  intro d cell hd hcell
  by_cases hdl : d < σ.length
  · rw [getElem?_append_lt _ _ _ hdl] at hcell
    exact h d cell hd hcell
  · have hdlen : d < σ.length + 1 := by
      have := lt_length_of_getElem?_some _ _ _ hcell
      simpa using this
    have hde : d = σ.length := by omega
    subst hde
    rw [List.getElem?_concat_length] at hcell
    cases hcell
    exact hc

theorem InvSeg_set (n : Nat) (σ : Store) (a : Nat) (c : HCell) (h : InvSeg n σ)
    (hc : HCell.refsGE n c) : InvSeg n (σ.set a c) := by
  intro d cell hd hcell
  rw [List.getElem?_set] at hcell
  by_cases hda : a = d
  · subst hda
    simp only [if_pos rfl] at hcell
    by_cases hl : a < σ.length
    · rw [if_pos hl] at hcell
      cases hcell
      exact hc
    · rw [if_neg hl] at hcell
      cases hcell
  · rw [if_neg hda] at hcell
    exact h d cell hd hcell

theorem Evolves_append (σ0 σ : Store) (c : HCell) (h : Evolves σ0 σ)
    (hc : HCell.refsGE σ0.length c) : Evolves σ0 (σ ++ [c]) := by
  obtain ⟨hlen, hold, hinv⟩ := h
  refine ⟨by simp; omega, ?_, InvSeg_append _ _ _ hinv hc⟩
  intro b hb
  rw [getElem?_append_lt _ _ _ (by omega), hold b hb]

theorem Evolves_set (σ0 σ : Store) (a : Nat) (c : HCell) (h : Evolves σ0 σ)
    (ha : σ0.length ≤ a) (hc : HCell.refsGE σ0.length c) :
    Evolves σ0 (σ.set a c) := by
  obtain ⟨hlen, hold, hinv⟩ := h
  refine ⟨by simpa using hlen, ?_, InvSeg_set _ _ _ _ hinv hc⟩
  intro b hb
  rw [List.getElem?_set_ne (by omega : a ≠ b), hold b hb]

theorem FieldsGE_get (n : Nat) (fs : List (String × HVal)) (k : String)
    (v : HVal) (h : FieldsGE n fs) (hg : hfGet? fs k = some v) :
    v.refGE n := by
  induction fs with
  | nil => cases hg
  | cons p rest ih =>
    unfold hfGet? at hg
    by_cases hp : p.1 == k
    · rw [if_pos hp] at hg
      cases hg
      exact h p (List.mem_cons_self _ _)
    · rw [if_neg hp] at hg
      exact ih (fun kv hkv => h kv (List.mem_cons_of_mem _ hkv)) hg

theorem ElemsGE_get (n : Nat) (es : List HVal) (i : Nat) (v : HVal)
    (h : ElemsGE n es) (hg : es[i]? = some v) : v.refGE n := by
  have hv : v ∈ es := by
    obtain ⟨hlt, hgv⟩ := List.getElem?_eq_some.mp hg
    exact hgv ▸ List.getElem_mem hlt
  exact h v hv

theorem FieldsGE_hfSet (n : Nat) (fs : List (String × HVal)) (k : String)
    (v : HVal) (h : FieldsGE n fs) (hv : v.refGE n) :
    FieldsGE n (hfSet fs k v) := by
  induction fs with
  | nil =>
    intro kv hkv
    rcases List.mem_singleton.mp hkv with rfl
    exact hv
  | cons p rest ih =>
    unfold hfSet
    by_cases hp : p.1 == k
    · rw [if_pos hp]
      intro kv hkv
      rcases List.mem_cons.mp hkv with rfl | hkv
      · exact hv
      · exact h kv (List.mem_cons_of_mem _ hkv)
    · rw [if_neg hp]
      intro kv hkv
      rcases List.mem_cons.mp hkv with rfl | hkv
      · exact h kv (List.mem_cons_self _ _)
      · exact ih (fun q hq => h q (List.mem_cons_of_mem _ hq)) kv hkv

theorem FieldsGE_hfPop (n : Nat) (fs : List (String × HVal)) (k : String)
    (h : FieldsGE n fs) : FieldsGE n (hfPop fs k) := by
  intro kv hkv
  exact h kv (List.mem_of_mem_filter hkv)

theorem FieldsGE_foldl_hfPop (n : Nat) (ks : List String)
    (fs : List (String × HVal)) (h : FieldsGE n fs) :
    FieldsGE n (ks.foldl hfPop fs) := by
  induction ks generalizing fs with
  | nil => exact h
  | cons k rest ih => exact ih (hfPop fs k) (FieldsGE_hfPop n fs k h)

/-- Joint specification of the deep copy: the store only grows, the old
segment is intact, and the copied value (and every cell it allocated)
lives in the closed fresh segment. -/
theorem copy_spec : ∀ fuel : Nat,
    (∀ σ v σ' v', copyVal fuel σ v = some (σ', v') →
      σ.length ≤ σ'.length ∧ (∀ b, b < σ.length → σ'[b]? = σ[b]?) ∧
      ∀ n, n ≤ σ.length → InvSeg n σ → InvSeg n σ' ∧ v'.refGE n) ∧
    (∀ σ vs σ' vs', copyList fuel σ vs = some (σ', vs') →
      σ.length ≤ σ'.length ∧ (∀ b, b < σ.length → σ'[b]? = σ[b]?) ∧
      ∀ n, n ≤ σ.length → InvSeg n σ → InvSeg n σ' ∧ ElemsGE n vs') ∧
    (∀ σ fs σ' fs', copyObj fuel σ fs = some (σ', fs') →
      σ.length ≤ σ'.length ∧ (∀ b, b < σ.length → σ'[b]? = σ[b]?) ∧
      ∀ n, n ≤ σ.length → InvSeg n σ → InvSeg n σ' ∧ FieldsGE n fs') := by
  intro fuel
  induction fuel with
  | zero =>
    refine ⟨fun σ v σ' v' h => ?_, fun σ vs σ' vs' h => ?_, fun σ fs σ' fs' h => ?_⟩ <;>
      cases h
  | succ fuel ih =>
    obtain ⟨ihV, ihL, ihO⟩ := ih
    refine ⟨fun σ v σ' v' h => ?_, fun σ vs σ' vs' h => ?_, fun σ fs σ' fs' h => ?_⟩
    · cases v with
      | ref a =>
        unfold copyVal at h
        cases hcell : σ[a]? with
        | none => rw [hcell] at h; cases h
        | some c =>
          rw [hcell] at h
          simp only [Option.some_bind'] at h
          cases c with
          | arr es =>
            cases hcl : copyList fuel σ es with
            | none =>
              simp only [Option.some_bind', hcl, Option.map_none'] at h
              exact Option.noConfusion h
            | some q =>
              obtain ⟨σ1, es1⟩ := q
              simp only [Option.some_bind', hcl, Option.map_some'] at h
              cases h
              obtain ⟨hl1, hold1, hrest1⟩ := ihL σ es σ1 es1 hcl
              refine ⟨by simp; omega, ?_, ?_⟩
              · intro b hb
                rw [getElem?_append_lt _ _ _ (by omega), hold1 b hb]
              · intro n hn hinv
                obtain ⟨hinv1, hels⟩ := hrest1 n hn hinv
                refine ⟨InvSeg_append n σ1 _ hinv1 hels, ?_⟩
                intro a' ha'
                cases ha'
                omega
          | obj fs =>
            cases hco : copyObj fuel σ fs with
            | none =>
              simp only [Option.some_bind', hco, Option.map_none'] at h
              exact Option.noConfusion h
            | some q =>
              obtain ⟨σ1, fs1⟩ := q
              simp only [Option.some_bind', hco, Option.map_some'] at h
              cases h
              obtain ⟨hl1, hold1, hrest1⟩ := ihO σ fs σ1 fs1 hco
              refine ⟨by simp; omega, ?_, ?_⟩
              · intro b hb
                rw [getElem?_append_lt _ _ _ (by omega), hold1 b hb]
              · intro n hn hinv
                obtain ⟨hinv1, hflds⟩ := hrest1 n hn hinv
                refine ⟨InvSeg_append n σ1 _ hinv1 hflds, ?_⟩
                intro a' ha'
                cases ha'
                omega
      | null =>
        cases h
        exact ⟨le_refl _, fun b hb => rfl,
          fun n hn hinv => ⟨hinv, refGE_of_not_ref n _ (fun a h => by cases h)⟩⟩
      | bool b0 =>
        cases h
        exact ⟨le_refl _, fun b hb => rfl,
          fun n hn hinv => ⟨hinv, refGE_of_not_ref n _ (fun a h => by cases h)⟩⟩
      | num n0 =>
        cases h
        exact ⟨le_refl _, fun b hb => rfl,
          fun n hn hinv => ⟨hinv, refGE_of_not_ref n _ (fun a h => by cases h)⟩⟩
      | str s0 =>
        cases h
        exact ⟨le_refl _, fun b hb => rfl,
          fun n hn hinv => ⟨hinv, refGE_of_not_ref n _ (fun a h => by cases h)⟩⟩
    · cases vs with
      | nil =>
        cases h
        exact ⟨le_refl _, fun b hb => rfl,
          fun n hn hinv => ⟨hinv, fun v hv => absurd hv (List.not_mem_nil v)⟩⟩
      | cons v vs0 =>
        unfold copyList at h
        cases hcv : copyVal fuel σ v with
        | none => rw [hcv] at h; cases h
        | some q =>
          obtain ⟨σ1, v1⟩ := q
          rw [hcv] at h
          cases hcl : copyList fuel σ1 vs0 with
          | none =>
            simp only [Option.some_bind', hcl, Option.map_none'] at h
            exact Option.noConfusion h
          | some q2 =>
            obtain ⟨σ2, vs2⟩ := q2
            simp only [Option.some_bind', hcl, Option.map_some'] at h
            cases h
            obtain ⟨hl1, hold1, hrest1⟩ := ihV σ v σ1 v1 hcv
            obtain ⟨hl2, hold2, hrest2⟩ := ihL σ1 vs0 _ _ hcl
            refine ⟨by omega, ?_, ?_⟩
            · intro b hb
              rw [hold2 b (by omega), hold1 b hb]
            · intro n hn hinv
              obtain ⟨hinv1, hv1⟩ := hrest1 n hn hinv
              obtain ⟨hinv2, hvs2⟩ := hrest2 n (by omega) hinv1
              refine ⟨hinv2, ?_⟩
              intro w hw
              rcases List.mem_cons.mp hw with rfl | hw
              · exact hv1
              · exact hvs2 w hw
    · cases fs with
      | nil =>
        cases h
        exact ⟨le_refl _, fun b hb => rfl,
          fun n hn hinv => ⟨hinv, fun kv hkv => absurd hkv (List.not_mem_nil kv)⟩⟩
      | cons p fs0 =>
        obtain ⟨k, v⟩ := p
        unfold copyObj at h
        cases hcv : copyVal fuel σ v with
        | none => rw [hcv] at h; cases h
        | some q =>
          obtain ⟨σ1, v1⟩ := q
          rw [hcv] at h
          cases hco : copyObj fuel σ1 fs0 with
          | none =>
            simp only [Option.some_bind', hco, Option.map_none'] at h
            exact Option.noConfusion h
          | some q2 =>
            obtain ⟨σ2, fs2⟩ := q2
            simp only [Option.some_bind', hco, Option.map_some'] at h
            cases h
            obtain ⟨hl1, hold1, hrest1⟩ := ihV σ v σ1 v1 hcv
            obtain ⟨hl2, hold2, hrest2⟩ := ihO σ1 fs0 _ _ hco
            refine ⟨by omega, ?_, ?_⟩
            · intro b hb
              rw [hold2 b (by omega), hold1 b hb]
            · intro n hn hinv
              obtain ⟨hinv1, hv1⟩ := hrest1 n hn hinv
              obtain ⟨hinv2, hfs2⟩ := hrest2 n (by omega) hinv1
              refine ⟨hinv2, ?_⟩
              intro kv hkv
              rcases List.mem_cons.mp hkv with rfl | hkv
              · exact hv1
              · exact hfs2 kv hkv

/-- The parent reassignment of line 185 allocates one fresh cell and
mutates only the copy's dict cell. -/
theorem heap_set_parent_spec (σ0 σ : Store) (page np : Nat) (σ' : Store)
    (hev : Evolves σ0 σ) (hpage : page < σ0.length) (hnp : σ0.length ≤ np)
    (hid : ∀ fs, σ0[page]? = some (HCell.obj fs) →
      ∀ a, hfGet? fs "id" ≠ some (HVal.ref a))
    (h : heap_set_parent σ page np = some σ') : Evolves σ0 σ' := by
  unfold heap_set_parent at h
  rw [Option.bind_eq_some'] at h
  obtain ⟨pc, hpc, h⟩ := h
  cases pc with
  | arr es => cases h
  | obj pageFields =>
    rw [Option.bind_eq_some'] at h
    obtain ⟨idv, hidv, h⟩ := h
    rw [Option.bind_eq_some'] at h
    obtain ⟨npc, hnpc, h⟩ := h
    cases npc with
    | arr es2 => cases h
    | obj npFields =>
      cases h
      have hidGE : HVal.refGE σ0.length idv := by
        intro a ha
        subst ha
        have hpc0 : σ0[page]? = some (HCell.obj pageFields) := by
          rw [← hev.2.1 page hpage, hpc]
        exact absurd hidv (hid pageFields hpc0 a)
      have hev2 : Evolves σ0 (σ ++ [HCell.obj [("page_id", idv)]]) := by
        refine Evolves_append _ _ _ hev ?_
        intro kv hkv
        rcases List.mem_singleton.mp hkv with rfl
        exact hidGE
      have hnpf : FieldsGE σ0.length npFields := hev2.2.2 np _ hnp hnpc
      refine Evolves_set _ _ _ _ hev2 hnp ?_
      refine FieldsGE_hfSet _ _ _ _ hnpf ?_
      intro a ha
      cases ha
      exact hev.1

/-- The original-title lookup of lines 187-191 either only reads, or
allocates the placeholder cell; either way nothing pre-existing moves. -/
theorem heap_original_title_spec (σ0 σ : Store) (page : Nat) (σ' : Store)
    (ot : HVal) (hev : Evolves σ0 σ)
    (h : heap_original_title σ page = some (σ', ot)) : Evolves σ0 σ' := by
  unfold heap_original_title at h
  rw [Option.bind_eq_some'] at h
  obtain ⟨pc, hpc, h⟩ := h
  cases pc with
  | arr es => cases h
  | obj pageFields =>
    rw [Option.bind_eq_some'] at h
    obtain ⟨pv, hpv, h⟩ := h
    cases pv with
    | ref pr =>
      rw [Option.bind_eq_some'] at h
      obtain ⟨prc, hprc, h⟩ := h
      cases prc with
      | arr es => cases h
      | obj propsFields =>
        simp only [] at h
        cases htv : hfGet? propsFields "title" with
        | some tv =>
          rw [htv] at h
          cases tv with
          | ref tr =>
            rw [Option.bind_eq_some'] at h
            obtain ⟨trc, htrc, h⟩ := h
            cases trc with
            | arr es => cases h
            | obj trFields =>
              rw [Option.bind_eq_some'] at h
              obtain ⟨av, hav, h⟩ := h
              cases av with
              | ref ar =>
                rw [Option.bind_eq_some'] at h
                obtain ⟨arc, harc, h⟩ := h
                cases arc with
                | obj fs => cases h
                | arr es =>
                  simp only [] at h
                  cases hes : es[0]? with
                  | none => rw [hes] at h; cases h
                  | some o =>
                    rw [hes] at h
                    cases h
                    exact hev
              | null => cases h
              | bool b => cases h
              | num n => cases h
              | str s => cases h
          | null => cases h
          | bool b => cases h
          | num n => cases h
          | str s => cases h
        | none =>
          rw [htv] at h
          cases h
          refine Evolves_append _ _ _ hev ?_
          intro kv hkv
          rcases List.mem_singleton.mp hkv with rfl
          intro a ha
          cases ha
    | null => cases h
    | bool b => cases h
    | num n => cases h
    | str s => cases h

/-- The new-title lookup of line 193 only reads, and the run it finds
lives in the fresh segment (it is reached from the copy's root through
cells of the closed fresh segment). -/
theorem heap_new_title_spec (σ0 σ : Store) (np : Nat) (nt : HVal)
    (hev : Evolves σ0 σ) (hnp : σ0.length ≤ np)
    (h : heap_new_title σ np = some nt) : nt.refGE σ0.length := by
  unfold heap_new_title at h
  rw [Option.bind_eq_some'] at h
  obtain ⟨npc, hnpc, h⟩ := h
  cases npc with
  | arr es => cases h
  | obj npFields =>
    have hnpf : FieldsGE σ0.length npFields := hev.2.2 np _ hnp hnpc
    rw [Option.bind_eq_some'] at h
    obtain ⟨pv, hpv, h⟩ := h
    cases pv with
    | ref p1 =>
      have hp1 : σ0.length ≤ p1 := FieldsGE_get _ _ _ _ hnpf hpv p1 rfl
      rw [Option.bind_eq_some'] at h
      obtain ⟨c1, hc1, h⟩ := h
      cases c1 with
      | arr es => cases h
      | obj f1 =>
        have hf1 : FieldsGE σ0.length f1 := hev.2.2 p1 _ hp1 hc1
        rw [Option.bind_eq_some'] at h
        obtain ⟨tv, htv, h⟩ := h
        cases tv with
        | ref p2 =>
          have hp2 : σ0.length ≤ p2 := FieldsGE_get _ _ _ _ hf1 htv p2 rfl
          rw [Option.bind_eq_some'] at h
          obtain ⟨c2, hc2, h⟩ := h
          cases c2 with
          | arr es => cases h
          | obj f2 =>
            have hf2 : FieldsGE σ0.length f2 := hev.2.2 p2 _ hp2 hc2
            rw [Option.bind_eq_some'] at h
            obtain ⟨av, hav, h⟩ := h
            cases av with
            | ref p3 =>
              have hp3 : σ0.length ≤ p3 := FieldsGE_get _ _ _ _ hf2 hav p3 rfl
              rw [Option.bind_eq_some'] at h
              obtain ⟨c3, hc3, h⟩ := h
              cases c3 with
              | obj fs => cases h
              | arr es =>
                have hes : ElemsGE σ0.length es := hev.2.2 p3 _ hp3 hc3
                exact ElemsGE_get _ _ _ _ hes h
            | null => cases h
            | bool b => cases h
            | num n => cases h
            | str s => cases h
        | null => cases h
        | bool b => cases h
        | num n => cases h
        | str s => cases h
    | null => cases h
    | bool b => cases h
    | num n => cases h
    | str s => cases h

/-- The two stores of lines 194-195 mutate only the `new_title` run's
cell and its `"text"` cell, both in the fresh segment. -/
theorem heap_update_title_spec (σ0 σ : Store) (ot nt : HVal)
    (to_lang : String) (σ' : Store) (hev : Evolves σ0 σ)
    (hnt : nt.refGE σ0.length)
    (h : heap_update_title σ ot nt to_lang = some σ') : Evolves σ0 σ' := by
  unfold heap_update_title at h
  cases ot with
  | null => cases h
  | bool b => cases h
  | num n => cases h
  | str s => cases h
  | ref otr =>
    cases nt with
    | null => cases h
    | bool b => cases h
    | num n => cases h
    | str s => cases h
    | ref ntr =>
      have hntr : σ0.length ≤ ntr := hnt ntr rfl
      rw [Option.bind_eq_some'] at h
      obtain ⟨oc, hoc, h⟩ := h
      cases oc with
      | arr es => cases h
      | obj otFields =>
        rw [Option.bind_eq_some'] at h
        obtain ⟨otv, hotv, h⟩ := h
        cases otv with
        | null => cases h
        | bool b => cases h
        | num n => cases h
        | str s => cases h
        | ref ottr =>
          rw [Option.bind_eq_some'] at h
          obtain ⟨ottc, hottc, h⟩ := h
          cases ottc with
          | arr es => cases h
          | obj ottFields =>
            rw [Option.bind_eq_some'] at h
            obtain ⟨cv, hcv, h⟩ := h
            cases cv with
            | null => cases h
            | bool b => cases h
            | num n => cases h
            | ref a => cases h
            | str otContent =>
              rw [Option.bind_eq_some'] at h
              obtain ⟨nc, hnc, h⟩ := h
              cases nc with
              | arr es => cases h
              | obj ntFields =>
                have hntf : FieldsGE σ0.length ntFields := hev.2.2 ntr _ hntr hnc
                rw [Option.bind_eq_some'] at h
                obtain ⟨ntv, hntv, h⟩ := h
                cases ntv with
                | null => cases h
                | bool b => cases h
                | num n => cases h
                | str s => cases h
                | ref nttr =>
                  have hnttr : σ0.length ≤ nttr :=
                    FieldsGE_get _ _ _ _ hntf hntv nttr rfl
                  rw [Option.bind_eq_some'] at h
                  obtain ⟨nttc, hnttc, h⟩ := h
                  cases nttc with
                  | arr es => cases h
                  | obj nttFields =>
                    have hnttf : FieldsGE σ0.length nttFields :=
                      hev.2.2 nttr _ hnttr hnttc
                    have hev5 : Evolves σ0 (σ.set nttr (.obj (hfSet nttFields
                        "content" (.str (otContent ++ " (" ++ to_lang ++ ")"))))) := by
                      refine Evolves_set _ _ _ _ hev hnttr ?_
                      refine FieldsGE_hfSet _ _ _ _ hnttf ?_
                      intro a ha
                      cases ha
                    rw [Option.bind_eq_some'] at h
                    obtain ⟨oc5, hoc5, h⟩ := h
                    cases oc5 with
                    | arr es => cases h
                    | obj otFields5 =>
                      rw [Option.bind_eq_some'] at h
                      obtain ⟨pv, hpv, h⟩ := h
                      cases pv with
                      | null => cases h
                      | bool b => cases h
                      | num n => cases h
                      | ref a => cases h
                      | str otPlain =>
                        rw [Option.bind_eq_some'] at h
                        obtain ⟨nc5, hnc5, h⟩ := h
                        cases nc5 with
                        | arr es => cases h
                        | obj ntFields5 =>
                          cases h
                          have hntf5 : FieldsGE σ0.length ntFields5 :=
                            hev5.2.2 ntr _ hntr hnc5
                          refine Evolves_set _ _ _ _ hev5 hntr ?_
                          refine FieldsGE_hfSet _ _ _ _ hntf5 ?_
                          intro a ha
                          cases ha

/-- The pops of line 196 mutate only the copy's dict cell. -/
theorem heap_strip_spec (σ0 σ : Store) (np : Nat) (σ' : Store)
    (hev : Evolves σ0 σ) (hnp : σ0.length ≤ np)
    (h : heap_strip σ np = some σ') : Evolves σ0 σ' := by
  unfold heap_strip at h
  rw [Option.bind_eq_some'] at h
  obtain ⟨npc, hnpc, h⟩ := h
  cases npc with
  | arr es => cases h
  | obj npFields =>
    cases h
    have hnpf : FieldsGE σ0.length npFields := hev.2.2 np _ hnp hnpc
    exact Evolves_set _ _ _ _ hev hnp (FieldsGE_foldl_hfPop _ _ _ hnpf)

/-- C10: the original page object given to
`create_new_page_for_translation` is left unchanged by the call.  On the
heap embedding: for every successful run, every cell of the pre-call
store — in particular the whole object graph of the original page — is
byte-for-byte the same afterwards; the parent reassignment, title
suffixing and server-managed-key stripping all hit only cells allocated
by the deep copy of line 183.  (The hypothesis on the page's "id" value
reflects that a Notion page id is a string, not a container.) -/
theorem create_new_page_heap_frame (fuel : Nat) (σ0 : Store) (page : Nat)
    (to_lang : String) (σ' : Store) (np : Nat)
    (hpage : page < σ0.length)
    (hid : ∀ fs, σ0[page]? = some (HCell.obj fs) →
      ∀ a, hfGet? fs "id" ≠ some (HVal.ref a))
    (h : create_new_page_heap fuel σ0 page to_lang = some (σ', np)) :
    ∀ b, b < σ0.length → σ'[b]? = σ0[b]? := by
  unfold create_new_page_heap at h
  cases hcv : copyVal fuel σ0 (.ref page) with
  | none => rw [hcv] at h; cases h
  | some q =>
    obtain ⟨σ1, npv⟩ := q
    rw [hcv] at h
    cases npv with
    | null => cases h
    | bool b => cases h
    | num n => cases h
    | str s => cases h
    | ref np1 =>
      simp only [] at h
      obtain ⟨hl1, hold1, hrest1⟩ := (copy_spec fuel).1 σ0 _ σ1 _ hcv
      obtain ⟨hinv1, hnp1⟩ := hrest1 σ0.length (le_refl _) (InvSeg_init σ0)
      have hev1 : Evolves σ0 σ1 := ⟨hl1, hold1, hinv1⟩
      have hnp : σ0.length ≤ np1 := hnp1 np1 rfl
      cases hsp : heap_set_parent σ1 page np1 with
      | none => rw [hsp] at h; cases h
      | some σ3 =>
        rw [hsp] at h
        simp only [] at h
        have hev3 : Evolves σ0 σ3 :=
          heap_set_parent_spec σ0 σ1 page np1 σ3 hev1 hpage hnp hid hsp
        cases hot : heap_original_title σ3 page with
        | none => rw [hot] at h; cases h
        | some q4 =>
          obtain ⟨σ4, ot⟩ := q4
          rw [hot] at h
          simp only [] at h
          have hev4 : Evolves σ0 σ4 :=
            heap_original_title_spec σ0 σ3 page σ4 ot hev3 hot
          cases hnt : heap_new_title σ4 np1 with
          | none => rw [hnt] at h; cases h
          | some nt =>
            rw [hnt] at h
            simp only [] at h
            have hntGE : nt.refGE σ0.length :=
              heap_new_title_spec σ0 σ4 np1 nt hev4 hnp hnt
            cases hut : heap_update_title σ4 ot nt to_lang with
            | none => rw [hut] at h; cases h
            | some σ6 =>
              rw [hut] at h
              simp only [] at h
              have hev6 : Evolves σ0 σ6 :=
                heap_update_title_spec σ0 σ4 ot nt to_lang σ6 hev4 hntGE hut
              cases hst : heap_strip σ6 np1 with
              | none => rw [hst] at h; cases h
              | some σ7 =>
                rw [hst] at h
                simp only [] at h
                cases h
                have hev7 : Evolves σ0 σ' :=
                  heap_strip_spec σ0 σ6 _ _ hev6 hnp hst
                exact hev7.2.1

/-- Witness for C10: a concrete six-cell page graph (text cell, title
run, title array, title property, properties dict, page dict); the call
succeeds and every pre-existing cell is unchanged. -/
theorem create_new_page_heap_frame_witness :
    ∃ p : Store × Nat,
      create_new_page_heap 32
        [HCell.obj [("content", HVal.str "Hello")],
         HCell.obj [("text", HVal.ref 0), ("plain_text", HVal.str "Hello")],
         HCell.arr [HVal.ref 1],
         HCell.obj [("title", HVal.ref 2)],
         HCell.obj [("title", HVal.ref 3)],
         HCell.obj [("id", HVal.str "p1"), ("properties", HVal.ref 4)]]
        5 "FR" = some p ∧
      ∀ b, b < 6 →
        p.1[b]? =
          ([HCell.obj [("content", HVal.str "Hello")],
            HCell.obj [("text", HVal.ref 0), ("plain_text", HVal.str "Hello")],
            HCell.arr [HVal.ref 1],
            HCell.obj [("title", HVal.ref 2)],
            HCell.obj [("title", HVal.ref 3)],
            HCell.obj [("id", HVal.str "p1"), ("properties", HVal.ref 4)]] :
              Store)[b]? := by
  refine ⟨_, rfl, ?_⟩
  intro b hb
  refine create_new_page_heap_frame 32
    [HCell.obj [("content", HVal.str "Hello")],
     HCell.obj [("text", HVal.ref 0), ("plain_text", HVal.str "Hello")],
     HCell.arr [HVal.ref 1],
     HCell.obj [("title", HVal.ref 2)],
     HCell.obj [("title", HVal.ref 3)],
     HCell.obj [("id", HVal.str "p1"), ("properties", HVal.ref 4)]]
    5 "FR" _ _ (by decide) ?_ rfl b hb
  intro fs hfs a hcon
  have h6 : HCell.obj [("id", HVal.str "p1"), ("properties", HVal.ref 4)]
      = HCell.obj fs := by
    refine Option.some.inj ?_
    rw [← hfs]
    rfl
  cases h6
  simp [hfGet?] at hcon

end NotionTranslator
